import Mathlib

/-!
Verification development for the contract-viewer repository.

Strings from the TypeScript sources are modelled as `List Char`; every
function below is a direct translation of a function (or an inlined code
block) of the repository, with the source location noted in its doc
comment.  Theorems about the claims of the specification follow the
definitions.
-/

/-- Whitespace test matching the JavaScript regex class `\s` on the ASCII
range (space, newline, tab, carriage return, vertical tab, form feed). -/
def isWSChar (c : Char) : Bool :=
  c = ' ' || c = '\n' || c = '\t' || c = '\r' || c = '\x0b' || c = '\x0c'

/-- Helper for `collapseWS`: the Bool records whether the previous kept
character came from a whitespace run. -/
def collapseAux : Bool → List Char → List Char
  | _, [] => []
  | prevWS, c :: rest =>
    if isWSChar c then
      if prevWS then collapseAux true rest else ' ' :: collapseAux true rest
    else c :: collapseAux false rest

/-- JavaScript `s.replace(/\s+/g, ' ')`: every maximal whitespace run becomes
a single space (used at pdf-viewer-simple.tsx:89-90 and in the extractor). -/
def collapseWS (s : List Char) : List Char := collapseAux false s

/-- JavaScript `String.prototype.trim`. -/
def trimWS (s : List Char) : List Char :=
  ((s.dropWhile isWSChar).reverse.dropWhile isWSChar).reverse

/-- JavaScript `String.prototype.toLowerCase` on the ASCII range. -/
def lowerList (s : List Char) : List Char := s.map Char.toLower

/-- Boolean test that `pat` is an initial segment of `s` (the elementary
step of JavaScript `indexOf`). -/
def prefixMatch : List Char → List Char → Bool
  | [], _ => true
  | _ :: _, [] => false
  | a :: as, b :: bs => a == b && prefixMatch as bs

/-- Fuel-driven scan for the first index `j ≥ i` at which `pat` occurs in
`s`; returns `none` when the fuel runs out first. -/
def firstOccAux (pat s : List Char) : Nat → Nat → Option Nat
  | _, 0 => none
  | i, f + 1 =>
    if prefixMatch pat (s.drop i) then some i
    else firstOccAux pat s (i + 1) f

/-- JavaScript `s.indexOf(pat, i)` (`some j` instead of `j`, `none` instead
of `-1`). -/
def firstOccFrom (pat s : List Char) (i : Nat) : Option Nat :=
  firstOccAux pat s i (s.length + 1 - i)

/-- Decimal digit test, as in the regex class `\d`. -/
def isDigitChar (c : Char) : Bool := '0' ≤ c && c ≤ '9'

/-- First index `j ≥ i` at which `p` fails (or the end of the string):
the end of the maximal run of `p`-characters starting at `i`. -/
def runEnd (p : Char → Bool) (s : List Char) : Nat → Nat → Nat
  | i, 0 => i
  | i, f + 1 =>
    match s.get? i with
    | some c => if p c then runEnd p s (i + 1) f else i
    | none => i

/-- The substring `s[a..b)` of a character list. -/
def sliceOf (s : List Char) (a b : Nat) : List Char := (s.drop a).take (b - a)

/-- Decimal rendering of a natural number, least significant digit first. -/
def natToRevDigits : Nat → Nat → List Char
  | 0, _ => []
  | f + 1, n =>
    if n < 10 then [Char.ofNat (48 + n)]
    else Char.ofNat (48 + n % 10) :: natToRevDigits f (n / 10)

/-- Decimal rendering of a natural number (used for the template-literal
ids and the page-delimiter text of the sources). -/
def natToChars (n : Nat) : List Char := (natToRevDigits (n + 1) n).reverse

/-- JavaScript `parseInt` on a list of decimal digits. -/
def natOfDigits (ds : List Char) : Nat :=
  ds.foldl (fun a c => a * 10 + (c.toNat - 48)) 0

/-- The literal text of the page-delimiter head, `--- PAGE `. -/
def pageMarkerHead : List Char := "--- PAGE ".toList

/-- Fuel-driven collection of all matches of the regex
`--- PAGE (\d+) ---` (global flag), returning the parsed page numbers in
order; mirrors `textBeforeMatch.match(/--- PAGE (\d+) ---/g)` followed by
`parseInt` at pdf-viewer-simple.tsx:105-113. -/
def pageMarkersAux (s : List Char) : Nat → Nat → List Nat
  | _, 0 => []
  | i, f + 1 =>
    match firstOccFrom pageMarkerHead s i with
    | none => []
    | some p =>
      let dStart := p + 9
      let dEnd := runEnd isDigitChar s dStart (s.length + 1)
      if dEnd = dStart then pageMarkersAux s (p + 1) f
      else if prefixMatch (" ---".toList) (s.drop dEnd) then
        natOfDigits (sliceOf s dStart dEnd) :: pageMarkersAux s (dEnd + 4) f
      else pageMarkersAux s (p + 1) f

/-- All `--- PAGE (\d+) ---` matches of a string, as parsed page numbers. -/
def pageMarkers (s : List Char) : List Nat := pageMarkersAux s 0 (s.length + 1)

/-- Page number assigned to a match from the text before it: the number of
the last page-delimiter match, defaulting to 1
(pdf-viewer-simple.tsx:104-114).  The specification reads this as the page
that contains a given document offset. -/
def pageNumberOfPrefixText (textBeforeMatch : List Char) : Nat :=
  (pageMarkers textBeforeMatch).getLastD 1

/-- Visual bounds of a highlight, `{x, y, width, height}`. -/
structure Bounds where
  x : Nat
  y : Nat
  width : Nat
  height : Nat
deriving DecidableEq, Repr

/-- A resolved highlight, `{id, pageNumber, text, bounds}`
(pdf-viewer-simple.tsx:65-70, page.tsx:157-162). -/
structure Highlight where
  id : List Char
  pageNumber : Nat
  text : List Char
  bounds : Bounds
deriving DecidableEq, Repr

/-- The per-span body of the `exactTexts.forEach` loop of
`findExactTextHighlights` (pdf-viewer-simple.tsx:82-133): skip spans of
length `< 5`, normalise the span and the contract text, take the first
case-insensitive occurrence only, and derive the page number from a prefix
of the raw contract text cut at the offset found in the collapsed text. -/
def findExactStep (contractText : List Char) (idx : Nat) (exactText : List Char) :
    Option Highlight :=
  if exactText.length < 5 then none
  else
    let cleanExactText := collapseWS (trimWS exactText)
    let cleanContractText := collapseWS contractText
    match firstOccFrom (lowerList cleanExactText) (lowerList cleanContractText) 0 with
    | none => none
    | some foundIndex =>
      some
        { id := "exact-highlight-".toList ++ natToChars idx ++ "-".toList ++
            natToChars foundIndex
          pageNumber := pageNumberOfPrefixText (contractText.take foundIndex)
          text := cleanExactText
          bounds := ⟨50, 100, cleanExactText.length * 6, 16⟩ }

/-- Recursive form of the `forEach` with its running index. -/
def findExactAux (contractText : List Char) : List (List Char) → Nat → List Highlight
  | [], _ => []
  | t :: ts, idx =>
    (findExactStep contractText idx t).toList ++ findExactAux contractText ts (idx + 1)

/-- Function `findExactTextHighlights(contractText, exactTexts)`
(pdf-viewer-simple.tsx:65-137). -/
def findExactTextHighlights (contractText : List Char) (exactTexts : List (List Char)) :
    List Highlight :=
  findExactAux contractText exactTexts 0

/-- Line-terminator test: the characters the JavaScript regex `.` (without
the dotAll flag) refuses to match. -/
def isLineTerm (c : Char) : Bool := c = '\n' || c = '\r'

/-- The marker token `<<HIGHLIGHT>>` (13 characters). -/
def hlMarker : List Char := "<<HIGHLIGHT>>".toList

/-- The open part `<<HIGHLIGHT` of the marker (11 characters). -/
def hlMarkerOpen : List Char := "<<HIGHLIGHT".toList

/-- The push step shared by the four pattern loops of `handleSubmit`
(pdf-viewer-simple.tsx:344-349): keep a capture only when it is truthy and
longer than 3 characters, and push its trimmed form. -/
def pushCapture (cap : List Char) : List (List Char) :=
  if 3 < cap.length then [trimWS cap] else []

/-- Matches of `/<<HIGHLIGHT>>(.*?)<<HIGHLIGHT>>/g`
(pdf-viewer-simple.tsx:336): an opening marker, the lazily shortest
newline-free gap, a closing marker; on a newline in the gap the engine
restarts at the closing marker position. -/
def pat1Aux (s : List Char) : Nat → Nat → List (List Char)
  | _, 0 => []
  | i, f + 1 =>
    match firstOccFrom hlMarker s i with
    | none => []
    | some p =>
      match firstOccFrom hlMarker s (p + 13) with
      | none => []
      | some q =>
        let cap := sliceOf s (p + 13) q
        if cap.any isLineTerm then pat1Aux s q f
        else pushCapture cap ++ pat1Aux s (q + 13) f

/-- Captures extracted by the first highlight pattern. -/
def pat1Texts (s : List Char) : List (List Char) := pat1Aux s 0 (s.length + 2)

/-- Matches of `/<<HIGHLIGHT>>(.*?)(?=<<HIGHLIGHT|$)/g`
(pdf-viewer-simple.tsx:337): a marker, then the lazily shortest
newline-free run up to the next `<<HIGHLIGHT` or the end of the string
(the lookahead is not consumed). -/
def pat2Aux (s : List Char) : Nat → Nat → List (List Char)
  | _, 0 => []
  | i, f + 1 =>
    match firstOccFrom hlMarker s i with
    | none => []
    | some p =>
      let t0 := (firstOccFrom hlMarkerOpen s (p + 13)).getD s.length
      let cap := sliceOf s (p + 13) t0
      if cap.any isLineTerm then pat2Aux s (p + 1) f
      else pushCapture cap ++ pat2Aux s t0 f

/-- Captures extracted by the second highlight pattern. -/
def pat2Texts (s : List Char) : List (List Char) := pat2Aux s 0 (s.length + 2)

/-- Matches of `/<<HIGHLIGHT([^>]*?)>>(.*?)<<HIGHLIGHT>>/g`
(pdf-viewer-simple.tsx:338): `<<HIGHLIGHT`, a lazily shortest `>`-free run
up to `>>`, then a lazily shortest newline-free run up to a closing
marker.  `handleSubmit` reads `match[1] || match[2]`, so a non-empty first
capture wins over the second. -/
def pat3Aux (s : List Char) : Nat → Nat → List (List Char)
  | _, 0 => []
  | i, f + 1 =>
    match firstOccFrom hlMarkerOpen s i with
    | none => []
    | some p =>
      match firstOccFrom (">".toList) s (p + 11) with
      | none => []
      | some g =>
        if prefixMatch (">>".toList) (s.drop g) then
          let cap1 := sliceOf s (p + 11) g
          match firstOccFrom hlMarker s (g + 2) with
          | none => pat3Aux s (p + 1) f
          | some q =>
            let cap2 := sliceOf s (g + 2) q
            if cap2.any isLineTerm then pat3Aux s (p + 1) f
            else
              pushCapture (if cap1.isEmpty then cap2 else cap1) ++ pat3Aux s (q + 13) f
        else pat3Aux s (p + 1) f

/-- Captures extracted by the third highlight pattern. -/
def pat3Texts (s : List Char) : List (List Char) := pat3Aux s 0 (s.length + 2)

/-- Matches of `/"([^"]*\$[^"]*?)"/g` (pdf-viewer-simple.tsx:339): a
double-quoted run that contains a dollar sign. -/
def pat4Aux (s : List Char) : Nat → Nat → List (List Char)
  | _, 0 => []
  | i, f + 1 =>
    match firstOccFrom ("\"".toList) s i with
    | none => []
    | some p =>
      match firstOccFrom ("\"".toList) s (p + 1) with
      | none => []
      | some g =>
        let cap := sliceOf s (p + 1) g
        if cap.contains '$' then pushCapture cap ++ pat4Aux s (g + 1) f
        else pat4Aux s g f

/-- Captures extracted by the fourth highlight pattern. -/
def pat4Texts (s : List Char) : List (List Char) := pat4Aux s 0 (s.length + 2)

/-- The `for (const pattern of highlightPatterns)` loop of `handleSubmit`
(pdf-viewer-simple.tsx:335-350): every pattern runs and every capture is
appended, in pattern order. -/
def highlightPatternTexts (assistantContent : List Char) : List (List Char) :=
  pat1Texts assistantContent ++ pat2Texts assistantContent ++
    pat3Texts assistantContent ++ pat4Texts assistantContent

/-- Case-insensitive containment, JavaScript `s.includes(sub)` after the
`toLowerCase` calls of extractKeyPhrasesForHighlighting. -/
def containsSub (s sub : List Char) : Bool := (firstOccFrom sub s 0).isSome

/-- Matches of `/"([^"]+)"/g` (pdf-viewer-simple.tsx:144-150): non-empty
double-quoted runs; the caller keeps those with length `> 10`. -/
def quotedAux (s : List Char) : Nat → Nat → List (List Char)
  | _, 0 => []
  | i, f + 1 =>
    match firstOccFrom ("\"".toList) s i with
    | none => []
    | some p =>
      match firstOccFrom ("\"".toList) s (p + 1) with
      | none => []
      | some g =>
        if g = p + 1 then quotedAux s (p + 1) f
        else
          let cap := sliceOf s (p + 1) g
          (if 10 < cap.length then [cap] else []) ++ quotedAux s (g + 1) f

/-- All captures of the generic quoted-text regex that survive the
length-`> 10` filter. -/
def quotedTexts (s : List Char) : List (List Char) := quotedAux s 0 (s.length + 2)

/-- The lazy scan of `[^.]*?(\d+)\s*days?` starting after a keyword: walk
over non-dot characters looking for a digit run followed by optional
whitespace and `day` with an optional `s`; returns the end offset of the
whole match (which then extends over `[^.]*`). -/
def dayScan (ls : List Char) : Nat → Nat → Option Nat
  | _, 0 => none
  | c, f + 1 =>
    match ls.get? c with
    | none => none
    | some ch =>
      if ch = '.' then none
      else if isDigitChar ch then
        let e := runEnd isDigitChar ls c (ls.length + 1)
        let w := runEnd isWSChar ls e (ls.length + 1)
        if prefixMatch ("day".toList) (ls.drop w) then
          let w2 := if ls.get? (w + 3) = some 's' then w + 4 else w + 3
          some (runEnd (fun d => !(d = '.')) ls w2 (ls.length + 1))
        else dayScan ls (c + 1) f
      else dayScan ls (c + 1) f

/-- Matches of `/kw[^.]*?(\d+)\s*days?[^.]*/gi` for a lowercase literal
keyword `kw` (the payment and termination day patterns,
pdf-viewer-simple.tsx:159 and 176); `s` is the original text and `ls` its
lowercase form, full matches are returned in original case. -/
def dayPatternAux (kw s ls : List Char) : Nat → Nat → List (List Char)
  | _, 0 => []
  | i, f + 1 =>
    match firstOccFrom kw ls i with
    | none => []
    | some p =>
      match dayScan ls (p + kw.length) (ls.length + 1) with
      | none => dayPatternAux kw s ls (p + 1) f
      | some mEnd => sliceOf s p mEnd :: dayPatternAux kw s ls mEnd f

/-- Full matches of a keyword/day pattern. -/
def dayPatternTexts (kw s : List Char) : List (List Char) :=
  dayPatternAux kw s (lowerList s) 0 (s.length + 2)

/-- Matches of `/net\s*\d+[^.]*/gi` (pdf-viewer-simple.tsx:160). -/
def netPatternAux (s ls : List Char) : Nat → Nat → List (List Char)
  | _, 0 => []
  | i, f + 1 =>
    match firstOccFrom ("net".toList) ls i with
    | none => []
    | some p =>
      let w := runEnd isWSChar ls (p + 3) (ls.length + 1)
      let e := runEnd isDigitChar ls w (ls.length + 1)
      if e = w then netPatternAux s ls (p + 1) f
      else
        let mEnd := runEnd (fun d => !(d = '.')) ls e (ls.length + 1)
        sliceOf s p mEnd :: netPatternAux s ls mEnd f

/-- Full matches of the `net` payment pattern. -/
def netPatternTexts (s : List Char) : List (List Char) :=
  netPatternAux s (lowerList s) 0 (s.length + 2)

/-- Matches of `/kw[^.]*?[^.]*/gi` for a lowercase literal keyword (the
invoice and billing patterns, pdf-viewer-simple.tsx:161-162): the keyword
followed by the maximal dot-free run. -/
def kwRunPatternAux (kw s ls : List Char) : Nat → Nat → List (List Char)
  | _, 0 => []
  | i, f + 1 =>
    match firstOccFrom kw ls i with
    | none => []
    | some p =>
      let mEnd := runEnd (fun d => !(d = '.')) ls (p + kw.length) (ls.length + 1)
      sliceOf s p mEnd :: kwRunPatternAux kw s ls mEnd f

/-- Full matches of a keyword-plus-run pattern. -/
def kwRunPatternTexts (kw s : List Char) : List (List Char) :=
  kwRunPatternAux kw s (lowerList s) 0 (s.length + 2)

/-- Matches of `/kw1[^.]*?kw2[^.]*/gi` (the `notice...termination` and
`either party...terminate` patterns, pdf-viewer-simple.tsx:177-178): the
first keyword, a lazily shortest dot-free run up to the second keyword,
then the maximal dot-free run. -/
def twoKwPatternAux (kw1 kw2 s ls : List Char) : Nat → Nat → List (List Char)
  | _, 0 => []
  | i, f + 1 =>
    match firstOccFrom kw1 ls i with
    | none => []
    | some p =>
      let d := runEnd (fun c => !(c = '.')) ls (p + kw1.length) (ls.length + 1)
      match firstOccFrom kw2 ls (p + kw1.length) with
      | none => []
      | some q =>
        if q ≤ d then
          let mEnd := runEnd (fun c => !(c = '.')) ls (q + kw2.length) (ls.length + 1)
          sliceOf s p mEnd :: twoKwPatternAux kw1 kw2 s ls mEnd f
        else twoKwPatternAux kw1 kw2 s ls (p + 1) f

/-- Full matches of a two-keyword pattern. -/
def twoKwPatternTexts (kw1 kw2 s : List Char) : List (List Char) :=
  twoKwPatternAux kw1 kw2 s (lowerList s) 0 (s.length + 2)

/-- Digit-or-comma test, the regex class `[\d,]`. -/
def isDigitComma (c : Char) : Bool := isDigitChar c || c = ','

/-- Matches of `/\$[\d,]+(?:\.\d{2})?/g` (pdf-viewer-simple.tsx:191): a
dollar sign, at least one digit or comma, optionally a dot with exactly
two digits. -/
def amountPatternAux (s : List Char) : Nat → Nat → List (List Char)
  | _, 0 => []
  | i, f + 1 =>
    match firstOccFrom ("$".toList) s i with
    | none => []
    | some p =>
      let e := runEnd isDigitComma s (p + 1) (s.length + 1)
      if e = p + 1 then amountPatternAux s (p + 1) f
      else
        let mEnd :=
          if s.get? e = some '.' &&
              (s.get? (e + 1)).any isDigitChar && (s.get? (e + 2)).any isDigitChar
          then e + 3 else e
        sliceOf s p mEnd :: amountPatternAux s mEnd f

/-- Full matches of the monetary-amount pattern. -/
def amountPatternTexts (s : List Char) : List (List Char) :=
  amountPatternAux s 0 (s.length + 2)

/-- Function `extractKeyPhrasesForHighlighting(response, question)`
(pdf-viewer-simple.tsx:140-200): quoted runs longer than 10, then the
question-keyword-gated pattern groups, each group filtering its full
matches to length `> 10` (the amount group is unfiltered). -/
def extractKeyPhrasesForHighlighting (response question : List Char) : List (List Char) :=
  let questionLower := lowerList question
  let longOnly := fun (l : List (List Char)) => l.filter (fun m => 10 < m.length)
  quotedTexts response ++
    (if containsSub questionLower ("payment".toList) ||
        containsSub questionLower ("pay".toList) then
      longOnly (dayPatternTexts ("payment".toList) response) ++
        longOnly (netPatternTexts response) ++
        longOnly (kwRunPatternTexts ("invoice".toList) response) ++
        longOnly (kwRunPatternTexts ("billing".toList) response)
    else []) ++
    (if containsSub questionLower ("termination".toList) ||
        containsSub questionLower ("terminate".toList) then
      longOnly (dayPatternTexts ("termination".toList) response) ++
        longOnly (twoKwPatternTexts ("notice".toList) ("termination".toList) response) ++
        longOnly (twoKwPatternTexts ("either party".toList) ("terminate".toList) response)
    else []) ++
    (if containsSub questionLower ("value".toList) ||
        containsSub questionLower ("amount".toList) ||
        containsSub questionLower ("cost".toList) then
      amountPatternTexts response
    else [])

/-- The citation-extraction stage of `handleSubmit`
(pdf-viewer-simple.tsx:332-359): run the four highlight patterns over the
assistant answer, and only when they collectively extract nothing fall
back to the key-phrase heuristics keyed by the question. -/
def extractedHighlightTexts (assistantContent question : List Char) : List (List Char) :=
  let exactTextsToHighlight := highlightPatternTexts assistantContent
  if exactTextsToHighlight.isEmpty then
    extractKeyPhrasesForHighlighting assistantContent question
  else exactTextsToHighlight

/-- The extraction-and-resolution pipeline of `handleSubmit`
(pdf-viewer-simple.tsx:332-382): extract citation texts from the answer
and resolve them against the contract text;  an empty extraction or an
empty contract text clears the highlight set. -/
def runPipeline (assistantContent question contractText : List Char) : List Highlight :=
  let exactTextsToHighlight := extractedHighlightTexts assistantContent question
  if exactTextsToHighlight.isEmpty || contractText.isEmpty then []
  else findExactTextHighlights contractText exactTextsToHighlight

/-- Result of the chat endpoint `POST` as seen by its caller: either the
forwarded stream or a JSON error payload with an HTTP status. -/
inductive ChatResult where
  | streamOk : ChatResult
  | errorJson (errorMsg : String) (status : Nat) : ChatResult
deriving DecidableEq, Repr

/-- The quota error message of the chat route (part_001:87). -/
def quotaMsg : String := "OpenAI quota exceeded. Please check your OpenAI billing."

/-- The generic catch-all error message of the chat route (part_001:158). -/
def genericMsg : String := "Error processing chat request"

/-- The missing-key error message of the chat route (part_001:22). -/
def noKeyMsg : String := "OpenAI API key not configured"

/-- Control flow of the chat endpoint `POST` (part_001:14-164) as a
function of the configuration and the upstream completion status: no API
key gives a 500; an upstream non-ok response gives a dedicated 429
quota payload when the status is 429, and otherwise throws into the outer
catch, which answers 500 with the generic message; an ok upstream response
is forwarded as a stream. -/
def chatPOST (hasApiKey : Bool) (upstreamStatus : Nat) : ChatResult :=
  if !hasApiKey then .errorJson noKeyMsg 500
  else if 200 ≤ upstreamStatus ∧ upstreamStatus < 300 then .streamOk
  else if upstreamStatus = 429 then .errorJson quotaMsg 429
  else .errorJson genericMsg 500

/-- State owned by `ContractViewer` (page.tsx:167-168): the highlight list
and the active index, `-1` when there is none.  The index is an `Int`
because the source uses `-1` as the sentinel. -/
structure ViewerState where
  highlights : List Highlight
  currentHighlight : Int
deriving DecidableEq, Repr

/-- The initial `useState` values (page.tsx:167-168). -/
def initialViewerState : ViewerState := ⟨[], -1⟩

/-- Function `addHighlights(newHighlights)` (page.tsx:217-220): replace the list
and reset the active index to 0, or to -1 when the new list is empty. -/
def addHighlightsOp (_s : ViewerState) (newHighlights : List Highlight) : ViewerState :=
  ⟨newHighlights, if 0 < newHighlights.length then 0 else -1⟩

/-- The next branch of `handleHighlightNavigation` (page.tsx:207-215); `Int.tmod` is
the truncated remainder of the JavaScript `%`. -/
def navNext (s : ViewerState) : ViewerState :=
  if s.highlights.length = 0 then s
  else { s with currentHighlight :=
    (s.currentHighlight + 1).tmod (s.highlights.length : Int) }

/-- The prev branch of `handleHighlightNavigation` (page.tsx:207-215). -/
def navPrev (s : ViewerState) : ViewerState :=
  if s.highlights.length = 0 then s
  else { s with currentHighlight :=
    (s.currentHighlight - 1 + (s.highlights.length : Int)).tmod (s.highlights.length : Int) }

/-- The operations that mutate the viewer state. -/
inductive ViewerOp where
  | setHighlights (hs : List Highlight)
  | next
  | previous
deriving Repr

/-- Apply one operation to the state. -/
def applyViewerOp (s : ViewerState) : ViewerOp → ViewerState
  | .setHighlights hs => addHighlightsOp s hs
  | .next => navNext s
  | .previous => navPrev s

/-- State reached from the initial state by a sequence of operations. -/
def runViewerOps (ops : List ViewerOp) : ViewerState :=
  ops.foldl applyViewerOp initialViewerState

/-- The invariant claimed for `HighlightSetState`: the active index is -1
exactly on an empty list and otherwise lies within the list. -/
def ViewerInv (s : ViewerState) : Prop :=
  (s.currentHighlight = -1 ↔ s.highlights = []) ∧
    (s.highlights ≠ [] →
      0 ≤ s.currentHighlight ∧ s.currentHighlight < (s.highlights.length : Int))

/-- The active highlight of a state, `highlights[currentHighlight]`:
defined when the index is a valid position of the list. -/
def currentHighlightOf (s : ViewerState) : Option Highlight :=
  if 0 ≤ s.currentHighlight then s.highlights.get? s.currentHighlight.toNat else none

/-- A positioned text fragment of a page text map entry
(part_003:228-238): its text and bounds. -/
structure Frag where
  text : List Char
  bx : Nat
  by' : Nat
  bw : Nat
  bh : Nat
deriving DecidableEq, Repr

/-- One entry of the `elementPositions` array of `findTextInTextLayer`
(part_003:263-277): the half-open offset range a fragment occupies in the
page text, the fragment itself and its map index. -/
structure ElemPos where
  startIndex : Nat
  endIndex : Nat
  frag : Frag
  index : Nat
deriving DecidableEq, Repr

/-- The `elementPositions` accumulation loop (part_003:263-277): each
fragment occupies `[startIndex, startIndex + text.length)` and the next
fragment starts one further because of the appended space separator. -/
def buildPosAux : List Frag → Nat → Nat → List ElemPos
  | [], _, _ => []
  | fr :: fs, off, idx =>
    ⟨off, off + fr.text.length, fr, idx⟩ :: buildPosAux fs (off + fr.text.length + 1) (idx + 1)

/-- Element positions for a full fragment list. -/
def buildPositions (frags : List Frag) : List ElemPos := buildPosAux frags 0 0

/-- The `fullPageText` accumulation of the same loop (part_003:276):
fragment texts joined with a trailing space each. -/
def fullPageTextOf : List Frag → List Char
  | [] => []
  | fr :: fs => fr.text ++ (' ' :: fullPageTextOf fs)

/-- The element-intersection filter of `findTextInTextLayer`
(part_003:292-296): every element position whose range intersects the
match range, by the source's closed comparisons
`pos.startIndex <= matchEnd && pos.endIndex >= matchStart`. -/
def lookupRange (ps : List ElemPos) (matchStart matchEnd : Nat) : List ElemPos :=
  ps.filter (fun p => decide (p.startIndex ≤ matchEnd) && decide (matchStart ≤ p.endIndex))

/-- One match of `findTextInTextLayer` (part_003:298-305). -/
structure TLMatch where
  elements : List ElemPos
  matchStart : Nat
  matchEnd : Nat
  searchText : List Char
deriving DecidableEq, Repr

/-- The occurrence-collection loop of `findTextInTextLayer`
(part_003:282-308): repeated `indexOf` advancing by one, keeping a match
whenever its covering element list is non-empty. -/
def collectMatchesAux (pat s : List Char) (ps : List ElemPos) : Nat → Nat → List TLMatch
  | _, 0 => []
  | i, f + 1 =>
    match firstOccFrom pat s i with
    | none => []
    | some j =>
      let me := j + pat.length
      let els := lookupRange ps j me
      (if els.isEmpty then [] else [⟨els, j, me, pat⟩]) ++ collectMatchesAux pat s ps (j + 1) f

/-- Function `findTextInTextLayer(searchText, pageNum)` (part_003:255-311) for the
page's fragment list (`none` models a page without a text map). -/
def findTextInTextLayer (pageFrags : Option (List Frag)) (searchText : List Char) :
    List TLMatch :=
  match pageFrags with
  | none => []
  | some frags =>
    let cleanSearchText := trimWS (lowerList searchText)
    let fullPageText := fullPageTextOf frags
    let cleanFullText := lowerList fullPageText
    collectMatchesAux cleanSearchText cleanFullText (buildPositions frags) 0
      (cleanFullText.length + 1)

/-- The per-page text assembly loop of `extractTextFromPDF` (page-level
join, utils source lines 37-68): each non-empty page contributes
`\n\n--- PAGE n ---\n` and its whitespace-normalised trimmed text. -/
def assembleAux : List (List Char) → Nat → List Char
  | [], _ => []
  | p :: ps, n =>
    let pageText := trimWS (collapseWS p)
    (if 0 < pageText.length then
      "\n\n--- PAGE ".toList ++ natToChars n ++ " ---\n".toList ++ pageText
    else []) ++ assembleAux ps (n + 1)

/-- Result of `extractTextFromPDF` on already-extracted page strings (utils
source lines 37-80): the assembled text is trimmed, and an empty result is
the `NoExtractableText` rejection. -/
def extractTextFromPDFModel (pages : List (List Char)) : Option (List Char) :=
  let fullText := assembleAux pages 1
  if (trimWS fullText).length = 0 then none else some (trimWS fullText)

/-- Page 1 text of the end-to-end scenario of the specification. -/
def page1C1 : List Char :=
  "This Agreement shall terminate upon 30 days written notice.".toList

/-- The contract text extracted for the end-to-end scenario. -/
def ctC1 : List Char := (extractTextFromPDFModel [page1C1]).getD []

/-- The model answer of the end-to-end scenario: the phrase wrapped in a
paired highlight marker. -/
def ansC1 : List Char :=
  "<<HIGHLIGHT>>terminate upon 30 days written notice<<HIGHLIGHT>>".toList

/-- The cited phrase of the end-to-end scenario. -/
def phraseC1 : List Char := "terminate upon 30 days written notice".toList

/-- A question that could have produced the scenario answer. -/
def questionC1 : List Char := "What are the termination terms?".toList

/-- C1: the specification expects the end-to-end scenario to produce
exactly one resolved highlight; the pipeline in fact produces three. -/
theorem c1_counterexample :
    (runPipeline ansC1 questionC1 ctC1).length = 3 ∧
      ¬ (runPipeline ansC1 questionC1 ctC1).length = 1 := by
  constructor <;> decide

/-- C1 (amended): for the single-page document whose page 1 text is the
scenario sentence and the marker-wrapped model answer, the pipeline
produces exactly three resolved highlights (the perfect-marker, the
missing-closing-marker and the extra-content-marker patterns each
re-extract the same phrase), every one with pageNumber 1 and with the
cited phrase as its text. -/
theorem c1_three_highlights_page1 :
    (runPipeline ansC1 questionC1 ctC1).map (fun h => (h.pageNumber, h.text)) =
      [(1, phraseC1), (1, phraseC1), (1, phraseC1)] := by
  decide

/-- The answer of the marker-degradation scenario of the specification. -/
def ansC2 : List Char := "<<HIGHLIGHT>>Payment is due in 30 days<<HIGHLIGHT>>".toList

/-- A question matching the C2 scenario. -/
def questionC2 : List Char := "When is payment due?".toList

/-- C2: the layers are not first-wins.  On an answer whose paired-marker
layer extracts exactly one span, the degraded-marker layer and the
extra-content layer still contribute one entry each, so the extracted
list has three entries, not one. -/
theorem c2_counterexample :
    (pat1Texts ansC2).length = 1 ∧
      (pat2Texts ansC2).length = 1 ∧
        (pat3Texts ansC2).length = 1 ∧
          (extractedHighlightTexts ansC2 questionC2).length = 3 := by
  refine ⟨by decide, by decide, by decide, by decide⟩

/-- C2 (amended): all four highlight-marker patterns run unconditionally
and each appends its captures to the extracted list; only the
keyword-driven key-phrase fallback is skipped, namely exactly when the
four patterns together yield at least one span. -/
theorem c2_fallback_gated (assistantContent question : List Char)
    (h : highlightPatternTexts assistantContent ≠ []) :
    extractedHighlightTexts assistantContent question =
      pat1Texts assistantContent ++ pat2Texts assistantContent ++
        pat3Texts assistantContent ++ pat4Texts assistantContent := by
  unfold extractedHighlightTexts
  rw [if_neg (by simp only [List.isEmpty_iff]; exact h)]
  rfl

/-- C2 witness: the amended statement at the scenario answer. -/
theorem c2_fallback_gated_witness :
    extractedHighlightTexts ansC2 questionC2 =
      pat1Texts ansC2 ++ pat2Texts ansC2 ++ pat3Texts ansC2 ++ pat4Texts ansC2 :=
  c2_fallback_gated ansC2 questionC2 (by decide)

/-- C7: the extraction-and-resolution pipeline is a pure function of the
answer, the question and the contract text, so running it twice on
unchanged inputs yields sequences equal in their (pageNumber, text) pairs
and in their ids. -/
theorem c7_two_runs_equal (assistantContent question contractText : List Char) :
    (runPipeline assistantContent question contractText).map
        (fun h => (h.pageNumber, h.text)) =
      (runPipeline assistantContent question contractText).map
        (fun h => (h.pageNumber, h.text)) ∧
      (runPipeline assistantContent question contractText).map Highlight.id =
        (runPipeline assistantContent question contractText).map Highlight.id :=
  ⟨rfl, rfl⟩

/-- C9: an upstream 429 is answered with a dedicated 429 quota payload,
whose message differs from the generic one; every other upstream error
status falls into the catch-all 500 generic answer. -/
theorem c9_quota_distinct :
    chatPOST true 429 = ChatResult.errorJson quotaMsg 429 ∧
      quotaMsg ≠ genericMsg ∧
        ∀ st : Nat, ¬ (200 ≤ st ∧ st < 300) → st ≠ 429 →
          chatPOST true st = ChatResult.errorJson genericMsg 500 := by
  refine ⟨by decide, by decide, ?_⟩
  intro st h1 h2
  simp [chatPOST, h1, h2]

/-- C9 witness: a non-429 upstream failure, status 503, takes the generic
500 path. -/
theorem c9_quota_distinct_witness :
    chatPOST true 503 = ChatResult.errorJson genericMsg 500 :=
  c9_quota_distinct.2.2 503 (by decide) (by decide)

/-- Truncated remainder on natural-number casts agrees with the
natural-number remainder (the only case navigation reaches). -/
lemma tmod_natCast (m n : Nat) : Int.tmod (m : Int) (n : Int) = ((m % n : Nat) : Int) := rfl

/-- Evaluation of `navNext` on a state with a natural active index. -/
lemma navNext_eval (hs : List Highlight) (hne : hs ≠ []) (k : Nat) :
    navNext ⟨hs, (k : Int)⟩ = ⟨hs, (((k + 1) % hs.length : Nat) : Int)⟩ := by
  have hlen : hs.length ≠ 0 := by
    simpa using fun h => hne (List.length_eq_zero.mp h)
  simp only [navNext, hlen, if_false]
  have h1 : ((k : Int) + 1) = ((k + 1 : Nat) : Int) := by push_cast; ring
  rw [h1, tmod_natCast]

/-- Evaluation of `navPrev` on a state with a natural active index. -/
lemma navPrev_eval (hs : List Highlight) (hne : hs ≠ []) (k : Nat) :
    navPrev ⟨hs, (k : Int)⟩ = ⟨hs, (((k + hs.length - 1) % hs.length : Nat) : Int)⟩ := by
  have hlen : hs.length ≠ 0 := by
    simpa using fun h => hne (List.length_eq_zero.mp h)
  have hpos : 1 ≤ k + hs.length := by omega
  simp only [navPrev, hlen, if_false]
  have h1 : ((k : Int) - 1 + (hs.length : Int)) = ((k + hs.length - 1 : Nat) : Int) := by
    rw [Nat.cast_sub hpos]; push_cast; ring
  rw [h1, tmod_natCast]

/-- A state whose active index is a natural number below the length of a
non-empty list satisfies the invariant. -/
lemma viewerInv_of_natIndex (hs : List Highlight) (m : Nat) (hm : m < hs.length) :
    ViewerInv ⟨hs, (m : Int)⟩ := by
  have hne : hs ≠ [] := by
    intro h
    subst h
    simp at hm
  simp only [ViewerInv]
  refine ⟨⟨fun hcast => ?_, fun hnil => absurd hnil hne⟩, fun _ => ⟨?_, ?_⟩⟩
  · have h0 : (0 : Int) ≤ (m : Int) := Int.natCast_nonneg m
    omega
  · exact Int.natCast_nonneg m
  · exact_mod_cast hm

/-- Preservation of the highlight-set invariant by every operation. -/
lemma inv_applyViewerOp {s : ViewerState} (h : ViewerInv s) (op : ViewerOp) :
    ViewerInv (applyViewerOp s op) := by
  cases op with
  | setHighlights hs =>
    show ViewerInv (addHighlightsOp s hs)
    by_cases hlen : 0 < hs.length
    · have hrw : addHighlightsOp s hs = ⟨hs, ((0 : Nat) : Int)⟩ := by
        simp [addHighlightsOp, hlen]
      rw [hrw]
      exact viewerInv_of_natIndex hs 0 hlen
    · have hnil : hs = [] := List.length_eq_zero.mp (by omega)
      subst hnil
      simp [ViewerInv, addHighlightsOp]
  | next =>
    show ViewerInv (navNext s)
    by_cases hlen : s.highlights.length = 0
    · simpa [navNext, hlen] using h
    · have hne : s.highlights ≠ [] := fun hn => hlen (by simp [hn])
      obtain ⟨hiff, hbound⟩ := h
      obtain ⟨h0, hlt⟩ := hbound hne
      obtain ⟨k, hk⟩ := Int.eq_ofNat_of_zero_le h0
      have hstate : s = ⟨s.highlights, (k : Int)⟩ := by
        cases s
        simp_all
      rw [hstate, navNext_eval s.highlights hne k]
      exact viewerInv_of_natIndex _ _ (Nat.mod_lt _ (by omega))
  | previous =>
    show ViewerInv (navPrev s)
    by_cases hlen : s.highlights.length = 0
    · simpa [navPrev, hlen] using h
    · have hne : s.highlights ≠ [] := fun hn => hlen (by simp [hn])
      obtain ⟨hiff, hbound⟩ := h
      obtain ⟨h0, hlt⟩ := hbound hne
      obtain ⟨k, hk⟩ := Int.eq_ofNat_of_zero_le h0
      have hstate : s = ⟨s.highlights, (k : Int)⟩ := by
        cases s
        simp_all
      rw [hstate, navPrev_eval s.highlights hne k]
      exact viewerInv_of_natIndex _ _ (Nat.mod_lt _ (by omega))

/-- C5: every state reachable from the initial state by set-highlights and
next/previous operations satisfies the claimed invariant: the active index
is -1 exactly when the highlight list is empty, and lies in
`[0, length)` whenever the list is non-empty. -/
theorem c5_reachable_invariant (ops : List ViewerOp) : ViewerInv (runViewerOps ops) := by
  have base : ViewerInv initialViewerState := by
    refine ⟨by simp [initialViewerState], fun hne => absurd rfl hne⟩
  have gen : ∀ (l : List ViewerOp) (s : ViewerState), ViewerInv s →
      ViewerInv (l.foldl applyViewerOp s) := by
    intro l
    induction l with
    | nil => intro s hs; exact hs
    | cons op rest ih => intro s hs; exact ih _ (inv_applyViewerOp hs op)
  exact gen ops initialViewerState base

/-- Iterating `next` from a valid natural index adds the iteration count
modulo the list length. -/
lemma iterate_navNext (hs : List Highlight) (hne : hs ≠ []) :
    ∀ (m k : Nat), k < hs.length →
      Nat.iterate navNext m ⟨hs, (k : Int)⟩ =
        ⟨hs, (((k + m) % hs.length : Nat) : Int)⟩ := by
  intro m
  induction m with
  | zero =>
    intro k hk
    simp [Nat.mod_eq_of_lt hk]
  | succ m ih =>
    intro k hk
    rw [Function.iterate_succ_apply, navNext_eval hs hne k]
    rw [ih ((k + 1) % hs.length) (Nat.mod_lt _ (by omega))]
    have harith : ((k + 1) % hs.length + m) % hs.length = (k + (m + 1)) % hs.length := by
      rw [Nat.mod_add_mod]
      ring_nf
    rw [harith]

/-- C6: on a non-empty highlight set of size n with a valid active index,
n `next` steps return the active index to its starting value and a
`previous` immediately after a `next` restores the prior state (hence the
prior active highlight); on an empty set both operations are no-ops. -/
theorem c6_navigation (hs : List Highlight) (i : Int) (hne : hs ≠ [])
    (h0 : 0 ≤ i) (hlt : i < (hs.length : Int)) :
    Nat.iterate navNext hs.length ⟨hs, i⟩ = ⟨hs, i⟩ ∧
      navPrev (navNext ⟨hs, i⟩) = ⟨hs, i⟩ ∧
        ∀ c : Int, navNext ⟨[], c⟩ = ⟨[], c⟩ ∧ navPrev ⟨[], c⟩ = ⟨[], c⟩ := by
  obtain ⟨k, hk⟩ := Int.eq_ofNat_of_zero_le h0
  subst hk
  have hklt : k < hs.length := by exact_mod_cast hlt
  have hlen0 : 0 < hs.length := by omega
  refine ⟨?_, ?_, fun c => ⟨by simp [navNext], by simp [navPrev]⟩⟩
  · rw [iterate_navNext hs hne hs.length k hklt, Nat.add_mod_right,
      Nat.mod_eq_of_lt hklt]
  · rw [navNext_eval hs hne k, navPrev_eval hs hne ((k + 1) % hs.length)]
    have harith : ((k + 1) % hs.length + hs.length - 1) % hs.length = k := by
      have h1 : (k + 1) % hs.length + hs.length - 1 =
          (k + 1) % hs.length + (hs.length - 1) := by omega
      rw [h1, Nat.mod_add_mod]
      have h2 : k + 1 + (hs.length - 1) = k + hs.length := by omega
      rw [h2, Nat.add_mod_right, Nat.mod_eq_of_lt hklt]
    rw [harith]

/-- Two-highlight list used to instantiate the navigation claims. -/
def hlPairW : List Highlight :=
  [⟨"exact-highlight-0-15".toList, 1, "alpha beta gamma".toList, ⟨50, 100, 96, 16⟩⟩,
    ⟨"exact-highlight-1-33".toList, 1, "delta epsilon zeta".toList, ⟨50, 100, 108, 16⟩⟩]

/-- C6 witness: the navigation round trips on a concrete two-element set
with active index 1. -/
theorem c6_navigation_witness :
    Nat.iterate navNext hlPairW.length ⟨hlPairW, 1⟩ = ⟨hlPairW, 1⟩ ∧
      navPrev (navNext ⟨hlPairW, 1⟩) = ⟨hlPairW, 1⟩ ∧
        ∀ c : Int, navNext ⟨[], c⟩ = ⟨[], c⟩ ∧ navPrev ⟨[], c⟩ = ⟨[], c⟩ :=
  c6_navigation hlPairW 1 (by decide) (by decide) (by decide)

/-- Contract text of the active-highlight scenario. -/
def ctC8 : List Char := "--- PAGE 1 ---\nalpha beta gamma. delta epsilon zeta.".toList

/-- Citation spans of the active-highlight scenario. -/
def spansC8 : List (List Char) := ["alpha beta gamma".toList, "delta epsilon zeta".toList]

/-- Resolution result of the scenario (unchanged between the two runs). -/
def resolvedC8 : List Highlight := findExactTextHighlights ctC8 spansC8

/-- Scenario state: the resolved set was installed and the user navigated
to the second highlight. -/
def stateC8 : ViewerState := navNext (addHighlightsOp initialViewerState resolvedC8)

/-- C8: replacing the set with the equal sequence produced by re-resolving
the unchanged answer does not keep the active highlight: the second
highlight was active (id `exact-highlight-1-33`), and after the
replacement the first one (id `exact-highlight-0-15`) is active, so the
active highlight is not preserved by id. -/
theorem c8_counterexample :
    resolvedC8.length = 2 ∧
      (currentHighlightOf stateC8).map Highlight.id =
        some ("exact-highlight-1-33".toList) ∧
        (currentHighlightOf (addHighlightsOp stateC8 resolvedC8)).map Highlight.id =
          some ("exact-highlight-0-15".toList) ∧
          ¬ ("exact-highlight-0-15".toList = "exact-highlight-1-33".toList) := by
  refine ⟨by decide, by decide, by decide, by decide⟩

/-- C8 (amended): replacing the highlight set always resets the active
index to 0 (or -1 on an empty replacement), so after re-resolving an
unchanged answer the first highlight of the new sequence becomes active;
the previously active highlight stays active only if it was the first. -/
theorem c8_reset_to_first (s : ViewerState) (hs : List Highlight) (hne : hs ≠ []) :
    (addHighlightsOp s hs).currentHighlight = 0 ∧
      currentHighlightOf (addHighlightsOp s hs) = hs.get? 0 := by
  have hlen : 0 < hs.length := List.length_pos.mpr hne
  constructor
  · simp [addHighlightsOp, hlen]
  · simp [addHighlightsOp, currentHighlightOf, hlen]

/-- C8 witness: the amended statement at the scenario state. -/
theorem c8_reset_to_first_witness :
    (addHighlightsOp stateC8 resolvedC8).currentHighlight = 0 ∧
      currentHighlightOf (addHighlightsOp stateC8 resolvedC8) = resolvedC8.get? 0 :=
  c8_reset_to_first stateC8 resolvedC8 (by decide)

/-- A successful prefix match needs at least the pattern's length. -/
lemma prefixMatch_length : ∀ {pat l : List Char},
    prefixMatch pat l = true → pat.length ≤ l.length := by
  intro pat
  induction pat with
  | nil => intro l _; simp
  | cons a as ih =>
    intro l h
    cases l with
    | nil => simp [prefixMatch] at h
    | cons b bs =>
      simp only [prefixMatch, Bool.and_eq_true] at h
      simpa using ih h.2

/-- A non-empty pattern can only occur strictly inside the string. -/
lemma occ_lt_length {pat s : List Char} {j : Nat} (hne : pat ≠ [])
    (hocc : prefixMatch pat (s.drop j) = true) : j < s.length := by
  have hlen := prefixMatch_length hocc
  rw [List.length_drop] at hlen
  have hpos : 0 < pat.length := List.length_pos.mpr hne
  omega

/-- What a successful bounded scan returns: the least occurrence at or
after the start. -/
lemma firstOccAux_some {pat s : List Char} : ∀ {f i j : Nat},
    firstOccAux pat s i f = some j →
      i ≤ j ∧ prefixMatch pat (s.drop j) = true ∧
        ∀ k, i ≤ k → k < j → prefixMatch pat (s.drop k) = false := by
  intro f
  induction f with
  | zero => intro i j h; simp [firstOccAux] at h
  | succ f ih =>
    intro i j h
    rw [firstOccAux] at h
    by_cases hp : prefixMatch pat (s.drop i) = true
    · rw [if_pos hp] at h
      obtain rfl : i = j := by simpa using h
      exact ⟨le_refl i, hp, fun k hk1 hk2 => absurd hk1 (by omega)⟩
    · rw [if_neg hp] at h
      obtain ⟨h1, h2, h3⟩ := ih h
      refine ⟨by omega, h2, fun k hk1 hk2 => ?_⟩
      rcases Nat.eq_or_lt_of_le hk1 with heq | hlt
      · subst heq
        simpa using hp
      · exact h3 k hlt hk2

/-- What a failed bounded scan means: no occurrence in the scanned
interval. -/
lemma firstOccAux_none {pat s : List Char} : ∀ {f i : Nat},
    firstOccAux pat s i f = none →
      ∀ k, i ≤ k → k < i + f → prefixMatch pat (s.drop k) = false := by
  intro f
  induction f with
  | zero => intro i _ k hk1 hk2; omega
  | succ f ih =>
    intro i h k hk1 hk2
    rw [firstOccAux] at h
    by_cases hp : prefixMatch pat (s.drop i) = true
    · rw [if_pos hp] at h; exact absurd h (by simp)
    · rw [if_neg hp] at h
      rcases Nat.eq_or_lt_of_le hk1 with heq | hlt
      · subst heq
        simpa using hp
      · exact ih h k hlt (by omega)

/-- Completeness of `firstOccFrom`: when an occurrence at or after the
start exists within the string, the scan returns the least one. -/
lemma firstOccFrom_complete {pat s : List Char} {i j : Nat} (hij : i ≤ j)
    (hjs : j ≤ s.length) (hocc : prefixMatch pat (s.drop j) = true) :
    ∃ j0, firstOccFrom pat s i = some j0 ∧ i ≤ j0 ∧ j0 ≤ j ∧
      prefixMatch pat (s.drop j0) = true ∧
        ∀ k, i ≤ k → k < j0 → prefixMatch pat (s.drop k) = false := by
  cases h : firstOccFrom pat s i with
  | none =>
    exfalso
    have hall := firstOccAux_none h j hij (by omega)
    rw [hocc] at hall
    exact absurd hall (by simp)
  | some j0 =>
    obtain ⟨h1, h2, h3⟩ := firstOccAux_some h
    have hle : j0 ≤ j := by
      by_contra hgt
      have := h3 j hij (by omega)
      rw [hocc] at this
      exact absurd this (by simp)
    exact ⟨j0, rfl, h1, hle, h2, h3⟩

/-- Every element position built from the running offset starts at or
after that offset. -/
lemma mem_buildPosAux_start : ∀ {fs : List Frag} {off idx : Nat} {p : ElemPos},
    p ∈ buildPosAux fs off idx → off ≤ p.startIndex := by
  intro fs
  induction fs with
  | nil => intro off idx p h; simp [buildPosAux] at h
  | cons fr fs ih =>
    intro off idx p h
    rw [buildPosAux] at h
    rcases List.mem_cons.mp h with heq | hmem
    · subst heq; exact le_refl off
    · have := ih hmem
      omega

/-- The element-intersection filter applied to the exact range of one of
the built positions keeps exactly that position. -/
lemma lookupRange_exact : ∀ {fs : List Frag} {off idx : Nat} {p : ElemPos},
    p ∈ buildPosAux fs off idx →
      lookupRange (buildPosAux fs off idx) p.startIndex p.endIndex = [p] := by
  intro fs
  induction fs with
  | nil => intro off idx p h; simp [buildPosAux] at h
  | cons fr fs ih =>
    intro off idx p h
    rw [buildPosAux] at h
    rcases List.mem_cons.mp h with heq | hmem
    · subst heq
      rw [buildPosAux, lookupRange, List.filter_cons]
      simp only [decide_eq_true_eq]
      rw [if_pos (by simp)]
      have htail : List.filter (fun q => decide (q.startIndex ≤ off + fr.text.length) &&
          decide (off ≤ q.endIndex)) (buildPosAux fs (off + fr.text.length + 1) (idx + 1)) =
            [] := by
        rw [List.filter_eq_nil_iff]
        intro q hq
        have hstart := mem_buildPosAux_start hq
        simp only [Bool.and_eq_true, decide_eq_true_eq, not_and]
        intro hcon
        omega
      rw [htail]
    · rw [buildPosAux, lookupRange, List.filter_cons]
      have hstart := mem_buildPosAux_start hmem
      rw [if_neg (by simp only [Bool.and_eq_true, decide_eq_true_eq, not_and]; intro hcon; omega)]
      exact ih hmem

/-- C4: looking up the exact offset range occupied by a single fragment in
the element-position index returns exactly that fragment's entry and no
other. -/
theorem c4_lookup_exact_fragment (frags : List Frag) (p : ElemPos)
    (hmem : p ∈ buildPositions frags) :
    lookupRange (buildPositions frags) p.startIndex p.endIndex = [p] :=
  lookupRange_exact hmem

/-- Concrete two-fragment page used to instantiate the lookup claim. -/
def fragsW : List Frag := [⟨"ab".toList, 3, 4, 10, 12⟩, ⟨"cd".toList, 20, 4, 10, 12⟩]

/-- The element position of the second fragment of `fragsW`. -/
def posW : ElemPos := ⟨3, 5, ⟨"cd".toList, 20, 4, 10, 12⟩, 1⟩

/-- C4 witness: the exact-range lookup of the second fragment of a
concrete two-fragment page returns exactly its entry. -/
theorem c4_lookup_exact_fragment_witness :
    posW ∈ buildPositions fragsW ∧
      lookupRange (buildPositions fragsW) posW.startIndex posW.endIndex = [posW] :=
  ⟨by decide, c4_lookup_exact_fragment fragsW posW (by decide)⟩

/-- Every offset inside the accumulated page text is covered by the closed
range of one of the built element positions (fragment characters by their
own entry, each separator by the entry it follows). -/
lemma buildPosAux_cover : ∀ {fs : List Frag} {off idx m : Nat}, off ≤ m →
    m < off + (fullPageTextOf fs).length →
      ∃ p, p ∈ buildPosAux fs off idx ∧ p.startIndex ≤ m ∧ m ≤ p.endIndex := by
  intro fs
  induction fs with
  | nil =>
    intro off idx m h1 h2
    simp only [fullPageTextOf, List.length_nil] at h2
    omega
  | cons fr fs ih =>
    intro off idx m h1 h2
    rw [buildPosAux]
    by_cases hm : m ≤ off + fr.text.length
    · exact ⟨⟨off, off + fr.text.length, fr, idx⟩, List.mem_cons_self _ _, h1, hm⟩
    · have hlen : (fullPageTextOf (fr :: fs)).length =
          fr.text.length + 1 + (fullPageTextOf fs).length := by
        simp [fullPageTextOf]
        omega
      obtain ⟨p, hp1, hp2, hp3⟩ := @ih (off + fr.text.length + 1) (idx + 1) m
        (by omega) (by omega)
      exact ⟨p, List.mem_cons_of_mem _ hp1, hp2, hp3⟩

/-- Completeness of the occurrence-collection loop: with enough fuel and a
position index covering the searched string, every occurrence of a
non-empty pattern appears among the collected match starts. -/
lemma collectMatchesAux_complete {pat s : List Char} {ps : List ElemPos}
    (hpat : pat ≠ [])
    (hcov : ∀ m, m < s.length → ∃ p, p ∈ ps ∧ p.startIndex ≤ m ∧ m ≤ p.endIndex) :
    ∀ f i j, s.length ≤ i + f → i ≤ j → prefixMatch pat (s.drop j) = true →
      j ∈ (collectMatchesAux pat s ps i f).map TLMatch.matchStart := by
  intro f
  induction f with
  | zero =>
    intro i j hfuel hij hocc
    have := occ_lt_length hpat hocc
    omega
  | succ f ih =>
    intro i j hfuel hij hocc
    have hjlt : j < s.length := occ_lt_length hpat hocc
    obtain ⟨j0, heq, hi0, hle, hocc0, _⟩ :=
      firstOccFrom_complete hij (by omega) hocc
    rw [collectMatchesAux, heq]
    have hj0lt : j0 < s.length := occ_lt_length hpat hocc0
    obtain ⟨p, hp1, hp2, hp3⟩ := hcov j0 hj0lt
    have hels : p ∈ lookupRange ps j0 (j0 + pat.length) := by
      rw [lookupRange, List.mem_filter]
      refine ⟨hp1, ?_⟩
      simp only [Bool.and_eq_true, decide_eq_true_eq]
      omega
    have hne : (lookupRange ps j0 (j0 + pat.length)).isEmpty = false := by
      rcases hE : (lookupRange ps j0 (j0 + pat.length)) with _ | ⟨a, l⟩
      · rw [hE] at hels; simp at hels
      · rfl
    simp only [hne, Bool.false_eq_true, if_false, List.map_append, List.map_cons,
      List.map_nil]
    rcases Nat.eq_or_lt_of_le hle with heqj | hltj
    · subst heqj
      exact List.mem_append_left _ (List.mem_singleton.mpr rfl)
    · refine List.mem_append_right _ ?_
      exact ih (j0 + 1) j (by omega) (by omega) hocc

/-- C10: `findTextInTextLayer` returns a match for every occurrence
position of the (non-empty) cleaned search text in the page's space-joined
concatenated text, not only for the first one. -/
theorem c10_all_occurrences (frags : List Frag) (searchText : List Char) (j : Nat)
    (hne : trimWS (lowerList searchText) ≠ [])
    (hocc : prefixMatch (trimWS (lowerList searchText))
      ((lowerList (fullPageTextOf frags)).drop j) = true) :
    j ∈ (findTextInTextLayer (some frags) searchText).map TLMatch.matchStart := by
  rw [findTextInTextLayer]
  refine collectMatchesAux_complete hne ?_ _ 0 j (by omega) (Nat.zero_le j) hocc
  intro m hm
  rw [lowerList, List.length_map] at hm
  exact buildPosAux_cover (Nat.zero_le m) (by omega)

/-- Page with two identical fragments used to instantiate the
all-occurrences claim. -/
def fragsW2 : List Frag := [⟨"hello".toList, 3, 4, 30, 12⟩, ⟨"hello".toList, 40, 4, 30, 12⟩]

/-- C10 witness: the search text occurs at offsets 0 and 6 of the joined
page text, and offset 6 (the second occurrence) is among the returned
match starts. -/
theorem c10_all_occurrences_witness :
    trimWS (lowerList ("Hello".toList)) ≠ [] ∧
      prefixMatch (trimWS (lowerList ("Hello".toList)))
        ((lowerList (fullPageTextOf fragsW2)).drop 6) = true ∧
        6 ∈ (findTextInTextLayer (some fragsW2) ("Hello".toList)).map TLMatch.matchStart :=
  ⟨by decide, by decide, c10_all_occurrences fragsW2 ("Hello".toList) 6 (by decide) (by decide)⟩

/-- Collapsing whitespace never lengthens a string. -/
lemma collapseAux_length_le : ∀ (l : List Char) (b : Bool),
    (collapseAux b l).length ≤ l.length := by
  intro l
  induction l with
  | nil => intro b; simp [collapseAux]
  | cons c rest ih =>
    intro b
    rw [collapseAux]
    by_cases hc : isWSChar c = true
    · rw [if_pos hc]
      cases b with
      | false => simpa using ih true
      | true =>
        simp only [if_true]
        have := ih true
        rw [List.length_cons]
        omega
    · rw [if_neg hc]
      simpa using ih false

/-- Dropping a prefix by a predicate never lengthens a list. -/
lemma length_dropWhile_le_self (p : Char → Bool) : ∀ l : List Char,
    (l.dropWhile p).length ≤ l.length := by
  intro l
  induction l with
  | nil => simp
  | cons c rest ih =>
    rw [List.dropWhile_cons]
    by_cases hc : p c = true
    · rw [if_pos hc, List.length_cons]
      omega
    · rw [if_neg hc]

/-- Trimming never lengthens a string. -/
lemma trimWS_length_le (l : List Char) : (trimWS l).length ≤ l.length := by
  rw [trimWS, List.length_reverse]
  calc ((l.dropWhile isWSChar).reverse.dropWhile isWSChar).length
      ≤ (l.dropWhile isWSChar).reverse.length := length_dropWhile_le_self _ _
    _ = (l.dropWhile isWSChar).length := List.length_reverse _
    _ ≤ l.length := length_dropWhile_le_self _ _

/-- Membership in the indexed `forEach` recursion: the step applied to the
`i`-th span with the running index produces a member of the result. -/
lemma mem_findExactAux {ct : List Char} : ∀ {ts : List (List Char)} {idx i : Nat}
    {t : List Char} {h : Highlight}, ts.get? i = some t →
      findExactStep ct (idx + i) t = some h → h ∈ findExactAux ct ts idx := by
  intro ts
  induction ts with
  | nil => intro idx i t h hget; simp at hget
  | cons t' ts ih =>
    intro idx i t h hget hstep
    cases i with
    | zero =>
      obtain rfl : t' = t := by simpa using hget
      rw [Nat.add_zero] at hstep
      rw [findExactAux, hstep]
      simp
    | succ i =>
      rw [findExactAux]
      refine List.mem_append_right _ ?_
      have hget' : ts.get? i = some t := by simpa using hget
      have hstep' : findExactStep ct (idx + 1 + i) t = some h := by
        rw [show idx + 1 + i = idx + (i + 1) from by omega]
        exact hstep
      exact ih hget' hstep'

/-- C3 (amended): for a citation span whose normalised form has length at
least 5 and occurs in the lower-cased document text, and for a document
text that is invariant under whitespace collapsing (so that the offset
found in the collapsed text is a valid offset of the raw text), the
resolver emits a highlight for the first such occurrence `j0`, whose
pageNumber is the number of the last page delimiter preceding `j0` in the
document text (1 when none precedes), and whose text is the normalised
span. -/
theorem c3_page_of_first_occurrence (ct : List Char) (ts : List (List Char))
    (i : Nat) (t : List Char) (j : Nat)
    (hraw : collapseWS ct = ct)
    (hget : ts.get? i = some t)
    (hlen : 5 ≤ (collapseWS (trimWS t)).length)
    (hocc : prefixMatch (lowerList (collapseWS (trimWS t))) ((lowerList ct).drop j) = true) :
    ∃ h ∈ findExactTextHighlights ct ts, ∃ j0, j0 ≤ j ∧
      prefixMatch (lowerList (collapseWS (trimWS t))) ((lowerList ct).drop j0) = true ∧
        (∀ k, k < j0 →
          prefixMatch (lowerList (collapseWS (trimWS t))) ((lowerList ct).drop k) = false) ∧
          h.pageNumber = pageNumberOfPrefixText (ct.take j0) ∧
            h.text = collapseWS (trimWS t) := by
  have hne : lowerList (collapseWS (trimWS t)) ≠ [] := by
    intro hnil
    have : (lowerList (collapseWS (trimWS t))).length = 0 := by rw [hnil]; rfl
    rw [lowerList, List.length_map] at this
    omega
  have hjlen : j < (lowerList ct).length := occ_lt_length hne hocc
  obtain ⟨j0, heq, _, hle, hocc0, hmin⟩ :=
    firstOccFrom_complete (Nat.zero_le j) (by omega) hocc
  have hnotshort : ¬ t.length < 5 := by
    have h1 := collapseAux_length_le (trimWS t) false
    have h2 := trimWS_length_le t
    rw [collapseWS] at hlen
    omega
  have hstep : findExactStep ct i t = some
      { id := "exact-highlight-".toList ++ natToChars i ++ "-".toList ++ natToChars j0
        pageNumber := pageNumberOfPrefixText (ct.take j0)
        text := collapseWS (trimWS t)
        bounds := ⟨50, 100, (collapseWS (trimWS t)).length * 6, 16⟩ } := by
    rw [findExactStep, if_neg hnotshort]
    simp only [hraw, heq]
  refine ⟨_, mem_findExactAux (by simpa using hget) (by rw [Nat.zero_add]; exact hstep),
    j0, hle, hocc0, fun k hk => hmin k (Nat.zero_le k) hk, rfl, rfl⟩

/-- Collapsed single-page document used to instantiate the amended page
claim. -/
def ctC3W : List Char := "--- PAGE 1 --- alpha beta gamma clause".toList

/-- C3 witness: on a whitespace-collapsed document, the span
`beta gamma clause` resolves to a highlight whose page number is computed
from the delimiters preceding its first occurrence. -/
theorem c3_page_of_first_occurrence_witness :
    ∃ h ∈ findExactTextHighlights ctC3W ["beta gamma clause".toList], ∃ j0, j0 ≤ 21 ∧
      prefixMatch (lowerList (collapseWS (trimWS ("beta gamma clause".toList))))
        ((lowerList ctC3W).drop j0) = true ∧
        (∀ k, k < j0 → prefixMatch (lowerList (collapseWS (trimWS ("beta gamma clause".toList))))
          ((lowerList ctC3W).drop k) = false) ∧
          h.pageNumber = pageNumberOfPrefixText (ctC3W.take j0) ∧
            h.text = collapseWS (trimWS ("beta gamma clause".toList)) :=
  c3_page_of_first_occurrence ctC3W ["beta gamma clause".toList] 0
    ("beta gamma clause".toList) 21 (by decide) (by decide) (by decide) (by decide)

/-- Three-page document of the C3 counterexample: the span sits at the
very start of page 3's text. -/
def ctC3 : List Char :=
  "--- PAGE 1 ---\nAAA\n\n--- PAGE 2 ---\nBBB\n\n--- PAGE 3 ---\nhello world target".toList

/-- The citation span of the C3 counterexample. -/
def spanC3 : List Char := "hello world target".toList

/-- C3: the resolver reports page 2 for a span that lies on page 3.  The
span is normalised (length 18 ≥ 5) and occurs verbatim at raw offset 55,
after the `--- PAGE 3 ---` delimiter, so the page containing the
occurrence is 3 under the page-delimiter rule applied to the document text
(and also under that rule applied to the collapsed document text at the
collapsed offset 53); the resolver nevertheless emits pageNumber 2,
because it cuts the raw text at the offset found in the collapsed text,
truncating the third delimiter. -/
theorem c3_counterexample :
    (findExactTextHighlights ctC3 [spanC3]).map Highlight.pageNumber = [2] ∧
      collapseWS (trimWS spanC3) = spanC3 ∧
        5 ≤ spanC3.length ∧
          prefixMatch (lowerList spanC3) ((lowerList ctC3).drop 55) = true ∧
            (∀ k, k < 55 → prefixMatch (lowerList spanC3) ((lowerList ctC3).drop k) = false) ∧
              pageNumberOfPrefixText (ctC3.take 55) = 3 ∧
                pageNumberOfPrefixText ((collapseWS ctC3).take 53) = 3 := by
  refine ⟨by decide, by decide, by decide, by decide, by decide, by decide, by decide⟩
